import Mathlib

/-!
# Verification of the `data_cleaning.py` pipeline

Shallow embedding of `src/data_cleaning.py` (a pandas data-cleaning
pipeline) and proofs of the specification's claims about it.

A pandas `DataFrame` is modelled row-major: a list of column descriptors
(name and dtype) plus a list of rows, each row a list of cell values
aligned positionally with the columns.  A cell is either a string (object
dtype), a number (we use `ℚ` for pandas floats, exact arithmetic being
irrelevant to the claims), or the missing marker `NaN`.  A position absent
from a (ragged) row reads as missing, matching pandas' NaN padding.
-/

namespace DataCleaning

/-- A pandas cell value: a string, a number, or the missing marker (NaN). -/
inductive Value where
  | vstr (s : String)
  | vnum (q : ℚ)
  | missing
deriving DecidableEq, Repr

/-- A column descriptor: its label and whether its dtype is numeric
(`select_dtypes(include=['number'])`) as opposed to object. -/
structure Col where
  name : String
  isNumeric : Bool
deriving DecidableEq, Repr

/-- A pandas DataFrame, row-major: column descriptors plus rows of cells
aligned positionally with the columns. -/
structure DataFrame where
  cols : List Col
  rows : List (List Value)
deriving DecidableEq, Repr

/-- Read the cell of a row at column position `j`; an absent position reads
as the missing marker (pandas NaN padding). -/
def cellAt (r : List Value) (j : Nat) : Value :=
  r.getD j .missing

/-! ## Characters and strings: `str.lower`, `str.replace(' ', '_')`, `str.strip` -/

/-- ASCII lowercasing of one character, as `str.lower()` acts on ASCII
codepoints (65–90 are `A`–`Z`, shifted by 32 to `a`–`z`). -/
def lowerChar (c : Char) : Char :=
  if 65 ≤ c.toNat ∧ c.toNat ≤ 90 then Char.ofNat (c.toNat + 32) else c

/-- `str.lower()`. -/
def lowerStr (s : String) : String :=
  ⟨s.data.map lowerChar⟩

/-- One step of `str.replace(' ', '_')`: a space becomes an underscore. -/
def usChar (c : Char) : Char :=
  if c = ' ' then '_' else c

/-- `str.replace(' ', '_')`. -/
def underscoreStr (s : String) : String :=
  ⟨s.data.map usChar⟩

/-- The whitespace characters removed by Python's `str.strip()`. -/
def isSpaceChar (c : Char) : Bool :=
  c = ' ' || c = '\t' || c = '\n' || c = '\r' || c = '\x0b' || c = '\x0c'

/-- Remove trailing whitespace from a character list. -/
def stripEnd (l : List Char) : List Char :=
  (l.reverse.dropWhile isSpaceChar).reverse

/-- Remove leading and trailing whitespace from a character list. -/
def stripList (l : List Char) : List Char :=
  stripEnd (l.dropWhile isSpaceChar)

/-- Python's `str.strip()`. -/
def stripStr (s : String) : String :=
  ⟨stripList s.data⟩

/-- `clean_column_names`' per-name transform:
`name.lower().replace(' ', '_').strip()` — lowercase, then replace each
space by an underscore, then strip leading/trailing whitespace (in the
source's order: the replace happens before the strip). -/
def normalizeName (s : String) : String :=
  stripStr (underscoreStr (lowerStr s))

/-- `clean_column_names(df)`: rewrite every column label with
`normalizeName`; rows are untouched. -/
def cleanColumnNames (df : DataFrame) : DataFrame :=
  { df with cols := df.cols.map (fun c => { c with name := normalizeName c.name }) }

/-! ## Column-role predicates (`'price' in col.lower()` etc.) -/

/-- Does `needle` occur as a contiguous run inside the character list?
(Python's `in` on strings.) -/
def containsSubList (needle : List Char) : List Char → Bool
  | [] => needle.isEmpty
  | c :: rest => needle.isPrefixOf (c :: rest) || containsSubList needle rest

/-- Python's `needle in hay` on strings. -/
def containsSub (hay needle : String) : Bool :=
  containsSubList needle.data hay.data

/-- `'price' in col.lower()`. -/
def isPriceName (n : String) : Bool :=
  containsSub (lowerStr n) "price"

/-- `'quantity' in col.lower() or 'qty' in col.lower()`. -/
def isQtyName (n : String) : Bool :=
  containsSub (lowerStr n) "quantity" || containsSub (lowerStr n) "qty"

/-- A price- or quantity-role column name. -/
def isNumericName (n : String) : Bool :=
  isPriceName n || isQtyName n

/-- `price_cols = [col for col in df.columns if 'price' in col.lower()]`. -/
def priceCols (cols : List Col) : List String :=
  (cols.map Col.name).filter isPriceName

/-- `quantity_cols = [col for col in df.columns if 'quantity' in col.lower() or 'qty' in col.lower()]`. -/
def quantityCols (cols : List Col) : List String :=
  (cols.map Col.name).filter isQtyName

/-- `numeric_cols = price_cols + quantity_cols` — also the
`cols_to_check` of `remove_invalid_rows`, which is computed identically. -/
def numericColNames (cols : List Col) : List String :=
  priceCols cols ++ quantityCols cols

/-! ## `clean_text_fields` -/

/-- Apply `f` to the element at position `j`, if any. -/
def listUpdateAt : Nat → (α → α) → List α → List α
  | _, _, [] => []
  | 0, f, a :: t => f a :: t
  | n + 1, f, a :: t => a :: listUpdateAt n f t

/-- Positions of the object-dtype (text) columns:
`df.select_dtypes(include=['object']).columns`. -/
def objIdxs : List Col → List Nat
  | [] => []
  | c :: cs =>
    if c.isNumeric then (objIdxs cs).map (· + 1)
    else 0 :: (objIdxs cs).map (· + 1)

/-- Python's `str(value)` as applied by `astype(str)`: a string stays
itself, NaN prints as `"nan"`, and a number prints via its decimal
representation (whose exact form none of the claims depend on). -/
def valueToStr : Value → String
  | .vstr s => s
  | .vnum q => toString q
  | .missing => "nan"

/-- One cell of `df[col].astype(str).str.strip()`. -/
def textCleanValue (v : Value) : Value :=
  .vstr (stripStr (valueToStr v))

/-- `clean_text_fields(df)`: for each object-dtype column (in order),
replace the column by its `astype(str).str.strip()`; dtypes and column
names are unchanged (the result of `astype(str)` is again object). -/
def cleanTextFields (df : DataFrame) : DataFrame :=
  { df with
    rows := (objIdxs df.cols).foldl
      (fun rs j => rs.map (listUpdateAt j textCleanValue)) df.rows }

/-! ## `convert_to_numeric` -/

/-- Accumulate a digit run into a natural number. -/
def digitsToNat (ds : List Char) : Nat :=
  ds.foldl (fun n c => n * 10 + (c.toNat - 48)) 0

/-- Parse an unsigned decimal literal: digits with an optional single
decimal point (at least one digit overall, nothing trailing). -/
def parseUnsigned (cs : List Char) : Option ℚ :=
  let ip := cs.takeWhile Char.isDigit
  let r1 := cs.dropWhile Char.isDigit
  match r1 with
  | [] => if ip.isEmpty then none else some ((digitsToNat ip : ℚ))
  | '.' :: r2 =>
    let fp := r2.takeWhile Char.isDigit
    let r3 := r2.dropWhile Char.isDigit
    if (ip.isEmpty && fp.isEmpty) || !r3.isEmpty then none
    else some ((digitsToNat ip : ℚ) + (digitsToNat fp : ℚ) / ((10 : ℚ) ^ fp.length))
  | _ => none

/-- The numeric parse performed by `pd.to_numeric`: surrounding
whitespace is tolerated, an optional sign precedes a decimal literal.
An unparseable string yields `none`. -/
def parseNumeric (s : String) : Option ℚ :=
  match stripList s.data with
  | [] => none
  | '-' :: cs => (parseUnsigned cs).map (fun q => -q)
  | '+' :: cs => parseUnsigned cs
  | cs => parseUnsigned cs

/-- One cell of `pd.to_numeric(df[col], errors='coerce')`: numbers and
NaN pass through, a string parses to a number or is coerced to NaN. -/
def toNumericCell : Value → Value
  | .vstr s =>
    match parseNumeric s with
    | some q => .vnum q
    | none => .missing
  | .vnum q => .vnum q
  | .missing => .missing

/-- Position of label `nm` in the column list (`df[nm]` lookup; labels
are unique within a table, per the data model). -/
def colIdx (cols : List Col) (nm : String) : Nat :=
  cols.findIdx (fun c => c.name == nm)

/-- One iteration of `convert_to_numeric`'s loop:
`df[col] = pd.to_numeric(df[col], errors='coerce')` — the column's cells
are coerced and its dtype becomes numeric. -/
def convStep (d : DataFrame) (nm : String) : DataFrame :=
  { cols := listUpdateAt (colIdx d.cols nm) (fun c => { c with isNumeric := true }) d.cols,
    rows := d.rows.map (listUpdateAt (colIdx d.cols nm) toNumericCell) }

/-- `convert_to_numeric(df)`: coerce every column of
`price_cols + quantity_cols` in order. -/
def convertToNumeric (df : DataFrame) : DataFrame :=
  (numericColNames df.cols).foldl convStep df

/-! ## `handle_missing_values` -/

/-- Does the row hold a value (not NaN) in every numeric-dtype column?
(`df.dropna(subset=numeric_cols)` keeps exactly these rows.)  A position
absent from a short row counts as missing, as pandas pads with NaN. -/
def rowCompleteNumeric : List Col → List Value → Bool
  | [], _ => true
  | c :: cs, [] => !c.isNumeric && rowCompleteNumeric cs []
  | c :: cs, v :: vs => (!c.isNumeric || !(decide (v = Value.missing))) && rowCompleteNumeric cs vs

/-- `handle_missing_values(df)`: select the numeric-dtype columns; if
there are any, drop every row missing a value in one of them. -/
def handleMissingValues (df : DataFrame) : DataFrame :=
  let numericCols := df.cols.filter (fun c => c.isNumeric)
  if numericCols.isEmpty then df
  else { df with rows := df.rows.filter (fun r => rowCompleteNumeric df.cols r) }

/-! ## `remove_invalid_rows` -/

/-- Elementwise `value >= 0` as pandas evaluates it while building the
mask `df[col] >= 0`: a number compares, NaN compares `False`, and a
string raises `TypeError`. -/
def cmpGe0 : Value → Except String Bool
  | .vnum q => .ok (decide (0 ≤ q))
  | .missing => .ok false
  | .vstr _ => .error "TypeError: '>=' not supported between instances of 'str' and 'int'"

/-- Keep the elements whose test returns `ok true`; propagate the first
raised error (the whole mask computation raises if any element does). -/
def filterE (p : α → Except String Bool) : List α → Except String (List α)
  | [] => .ok []
  | a :: l =>
    match p a, filterE p l with
    | .error e, _ => .error e
    | .ok _, .error e => .error e
    | .ok b, .ok l' => .ok (if b then a :: l' else l')

/-- One iteration of `remove_invalid_rows`' loop: `df = df[df[col] >= 0]`. -/
def colFilter (nm : String) (df : DataFrame) : Except String DataFrame :=
  (filterE (fun r => cmpGe0 (cellAt r (colIdx df.cols nm))) df.rows).map
    (fun rs => { df with rows := rs })

/-- Apply the per-column filters for the given labels, in order. -/
def applyFilters : List String → DataFrame → Except String DataFrame
  | [], df => .ok df
  | nm :: rest, df =>
    match colFilter nm df with
    | .error e => .error e
    | .ok d => applyFilters rest d

/-- `remove_invalid_rows(df)`: filter on `cols_to_check = price_cols +
quantity_cols`, column by column, in that order. -/
def removeInvalidRows (df : DataFrame) : Except String DataFrame :=
  applyFilters (numericColNames df.cols) df

/-! ## Derived notions used to state the claims -/

/-- A cell that is a number or the missing marker — i.e. not a raw string. -/
def isNumOrMissing : Value → Bool
  | .vstr _ => false
  | _ => true

/-- The boolean a successful `value >= 0` mask entry holds: `True` exactly
for a nonnegative number (NaN gives `False`). -/
def ge0b : Value → Bool
  | .vnum q => decide (0 ≤ q)
  | _ => false

/-- Row-level restatement of `clean_text_fields`: the per-column updates
folded over one row. -/
def textCleanRow (cols : List Col) (r : List Value) : List Value :=
  (objIdxs cols).foldl (fun r j => listUpdateAt j textCleanValue r) r

/-- Row-level restatement of `convert_to_numeric`: the per-column
coercions folded over one row. -/
def convRow (cols : List Col) (L : List String) (r : List Value) : List Value :=
  L.foldl (fun r nm => listUpdateAt (colIdx cols nm) toNumericCell r) r

/-- Every cell in a price/quantity-named column is a number or missing
(no raw string), so the `>= 0` comparisons of `remove_invalid_rows` are
all defined. -/
def checkedColsNumeric (df : DataFrame) : Bool :=
  df.rows.all fun r =>
    (numericColNames df.cols).all fun nm =>
      isNumOrMissing (cellAt r (colIdx df.cols nm))

instance {ε α : Type _} [DecidableEq ε] [DecidableEq α] : DecidableEq (Except ε α) := fun a b =>
  match a, b with
  | .error e, .error e' =>
    if h : e = e' then isTrue (by rw [h]) else isFalse (fun he => h (by injection he))
  | .ok x, .ok y =>
    if h : x = y then isTrue (by rw [h]) else isFalse (fun he => h (by injection he))
  | .error _, .ok _ => isFalse (fun he => by injection he)
  | .ok _, .error _ => isFalse (fun he => by injection he)

/-! ## Concrete tables used as counterexamples and witnesses -/

/-- The columns parsed from the CSV header `"Product Name, Price, Qty"`
(`read_csv` keeps the space after each comma). -/
def dfHeader : DataFrame :=
  { cols := [⟨"Product Name", false⟩, ⟨" Price", false⟩, ⟨" Qty", false⟩], rows := [] }

/-- A table whose `price` column still holds a raw string while its `qty`
column holds a negative number. -/
def dfStrPrice : DataFrame :=
  { cols := [⟨"price", false⟩, ⟨"qty", true⟩],
    rows := [[.vstr "x", .vnum (-1)]] }

/-- Witness table for the missing-value filter. -/
def dfW2 : DataFrame :=
  { cols := [⟨"price", true⟩], rows := [[.vnum 1], [.missing]] }

/-- Witness table for the invalid-value filter. -/
def dfW3 : DataFrame :=
  { cols := [⟨"price", true⟩], rows := [[.vnum 2], [.vnum (-1)]] }

/-- Witness table for numeric coercion. -/
def dfW4 : DataFrame :=
  { cols := [⟨"qty", false⟩], rows := [[.vstr "abc"]] }

/-- Witness table for filter-order commutation. -/
def dfW5 : DataFrame :=
  { cols := [⟨"price", true⟩, ⟨"qty", true⟩], rows := [[.vnum 1, .vnum 2]] }

/-- Witness table for row-order preservation. -/
def dfW7 : DataFrame :=
  { cols := [⟨"price", true⟩], rows := [[.vnum 3], [.vnum (-4)]] }

/-- Witness table for text-trimming of a missing cell. -/
def dfW9 : DataFrame :=
  { cols := [⟨"category", false⟩], rows := [[.missing]] }

/-- Witness table for the implicit missing-removal of the invalid filter. -/
def dfW10 : DataFrame :=
  { cols := [⟨"qty", true⟩], rows := [[.vnum 5], [.missing]] }

/-! ## Basic lemmas about the character-level operations -/

theorem toNat_ofNatAux (n : Nat) (h : n.isValidChar) : (Char.ofNatAux n h).toNat = n := rfl

theorem lowerChar_toNat_of_upper {c : Char} (h : 65 ≤ c.toNat ∧ c.toNat ≤ 90) :
    (lowerChar c).toNat = c.toNat + 32 := by
  have hv : (c.toNat + 32).isValidChar := by
    left
    omega
  unfold lowerChar
  rw [if_pos h]
  unfold Char.ofNat
  rw [dif_pos hv]
  exact toNat_ofNatAux _ _

theorem lowerChar_eq_self {c : Char} (h : ¬(65 ≤ c.toNat ∧ c.toNat ≤ 90)) :
    lowerChar c = c := by
  simp only [lowerChar, if_neg h]

theorem lowerChar_idem (c : Char) : lowerChar (lowerChar c) = lowerChar c := by
  by_cases h : 65 ≤ c.toNat ∧ c.toNat ≤ 90
  · have ht := lowerChar_toNat_of_upper h
    exact lowerChar_eq_self (by omega)
  · simp [lowerChar_eq_self h]

theorem usChar_lowerChar_idem (c : Char) :
    usChar (lowerChar (usChar (lowerChar c))) = usChar (lowerChar c) := by
  by_cases h : lowerChar c = ' '
  · rw [h]
    decide
  · have h1 : usChar (lowerChar c) = lowerChar c := by simp [usChar, h]
    rw [h1, lowerChar_idem, h1]

theorem dropWhile_idem (p : α → Bool) : ∀ l : List α,
    (l.dropWhile p).dropWhile p = l.dropWhile p
  | [] => rfl
  | a :: t => by
    by_cases h : p a
    · simp [List.dropWhile_cons, h, dropWhile_idem p t]
    · simp [List.dropWhile_cons, h]

theorem stripEnd_sublist (l : List Char) : (stripEnd l).Sublist l := by
  have h := (List.dropWhile_sublist (l := l.reverse) isSpaceChar).reverse
  simpa [stripEnd] using h

theorem stripList_sublist (l : List Char) : (stripList l).Sublist l :=
  (stripEnd_sublist _).trans (List.dropWhile_sublist (l := l) isSpaceChar)

/-- `stripEnd` yields a prefix of its input. -/
theorem stripEnd_isPrefix (l : List Char) : (stripEnd l).IsPrefix l := by
  have h := List.dropWhile_suffix (l := l.reverse) isSpaceChar
  have h2 := List.reverse_prefix.mpr h
  simpa [stripEnd] using h2

theorem stripEnd_idem (l : List Char) : stripEnd (stripEnd l) = stripEnd l := by
  simp [stripEnd, dropWhile_idem]

/-- If a list has no leading whitespace, neither has its `stripEnd`. -/
theorem dropWhile_stripEnd (l : List Char) (h : l.dropWhile isSpaceChar = l) :
    (stripEnd l).dropWhile isSpaceChar = stripEnd l := by
  cases hl : stripEnd l with
  | nil => rfl
  | cons b u =>
    obtain ⟨w, hw⟩ := stripEnd_isPrefix l
    rw [hl] at hw
    cases l with
    | nil => simp at hw
    | cons a t =>
      rw [List.cons_append] at hw
      have hba : b = a := by
        injection hw
      have hpa : isSpaceChar a = false := by
        by_cases hsp : isSpaceChar a
        · exfalso
          rw [List.dropWhile_cons, if_pos hsp] at h
          have hlen := congrArg List.length h
          have hle := (List.dropWhile_sublist (l := t) isSpaceChar).length_le
          simp at hlen
          omega
        · simpa using hsp
      rw [List.dropWhile_cons, hba, hpa]
      simp

theorem stripList_idem (l : List Char) : stripList (stripList l) = stripList l := by
  rw [stripList, stripList]
  rw [dropWhile_stripEnd (l.dropWhile isSpaceChar) (dropWhile_idem _ l)]
  exact stripEnd_idem _

theorem stripStr_idem (s : String) : stripStr (stripStr s) = stripStr s := by
  simp [stripStr, stripList_idem]

/-- A list each of whose elements is fixed by `f` is fixed by `map f`. -/
theorem map_eq_self_of_forall {f : α → α} : ∀ {l : List α}, (∀ a ∈ l, f a = a) → l.map f = l
  | [], _ => rfl
  | a :: t, h => by
    rw [List.map_cons, h a (List.mem_cons_self a t),
      map_eq_self_of_forall (fun b hb => h b (List.mem_cons_of_mem a hb))]

/-- List-level statement of idempotence of `normalizeName`. -/
theorem normList_idem (l : List Char) :
    stripList (((stripList ((l.map lowerChar).map usChar)).map lowerChar).map usChar)
      = stripList ((l.map lowerChar).map usChar) := by
  have hg : ∀ c ∈ stripList ((l.map lowerChar).map usChar), usChar (lowerChar c) = c := by
    intro c hc
    have hmem : c ∈ (l.map lowerChar).map usChar := (stripList_sublist _).mem hc
    rw [List.map_map] at hmem
    obtain ⟨a, _, ha⟩ := List.mem_map.mp hmem
    rw [← ha]
    exact usChar_lowerChar_idem a
  rw [List.map_map,
    map_eq_self_of_forall (f := usChar ∘ lowerChar) hg,
    stripList_idem]

theorem normalizeName_idem (s : String) :
    normalizeName (normalizeName s) = normalizeName s :=
  congrArg String.mk (normList_idem s.data)

/-- The output of `normalizeName` carries no leading or trailing
whitespace: stripping it again changes nothing. -/
theorem normalizeName_stripped (s : String) :
    stripStr (normalizeName s) = normalizeName s :=
  congrArg String.mk (stripList_idem _)

/-! ## Claim C1 (corrected) -/

/-- C1, counterexample: the claim states that normalizing `" Price"`
leaves no leading space-derived character and that the header
`"Product Name, Price, Qty"` yields exactly `product_name, price, qty`.
In fact the source replaces spaces by underscores *before* stripping, so
the leading space of `" Price"` survives as a leading underscore: the
header's columns normalize to `product_name, _price, _qty`. -/
theorem claim_C1_counterexample :
    (cleanColumnNames dfHeader).cols.map Col.name = ["product_name", "_price", "_qty"]
    ∧ normalizeName " Price" ≠ "price" := by
  constructor
  · decide
  · decide

/-- C1, amended: after normalization no leading or trailing *whitespace*
remains in any column name (stripping a normalized name changes nothing),
but a leading/trailing space survives as an underscore, so the header
`"Product Name, Price, Qty"` yields exactly `product_name, _price, _qty`. -/
theorem claim_C1 :
    (∀ s : String, stripStr (normalizeName s) = normalizeName s)
    ∧ (cleanColumnNames dfHeader).cols.map Col.name = ["product_name", "_price", "_qty"] :=
  ⟨normalizeName_stripped, by decide⟩

/-! ## Claim C6: idempotence of the Column Normalizer -/

/-- C6: applying `clean_column_names` twice yields exactly the same table
— in particular the same sequence of column names — as applying it once;
re-running on already-canonical names is a no-op. -/
theorem claim_C6 (df : DataFrame) :
    cleanColumnNames (cleanColumnNames df) = cleanColumnNames df := by
  have hcomp :
      (fun c : Col => { c with name := normalizeName c.name }) ∘
        (fun c : Col => { c with name := normalizeName c.name }) =
      (fun c : Col => { c with name := normalizeName c.name }) :=
    funext fun c => by simp [normalizeName_idem]
  simp only [cleanColumnNames]
  rw [List.map_map, hcomp]

/-! ## Claim C2: missing-filter completeness -/

/-- A row passing the `dropna` test holds a non-missing value in every
numeric-dtype column. -/
theorem rowCompleteNumeric_spec :
    ∀ (cols : List Col) (r : List Value), rowCompleteNumeric cols r = true →
      ∀ (j : Nat) (hj : j < cols.length), (cols.get ⟨j, hj⟩).isNumeric = true →
        cellAt r j ≠ Value.missing := by
  intro cols
  induction cols with
  | nil =>
    intro r _ j hj
    simp at hj
  | cons c cs ih =>
    intro r hrc j hj hnum
    cases r with
    | nil =>
      simp only [rowCompleteNumeric, Bool.and_eq_true] at hrc
      cases j with
      | zero =>
        simp only [List.get] at hnum
        rw [hnum] at hrc
        simp at hrc
      | succ j =>
        exact (ih [] hrc.2 j (by simpa using hj) hnum rfl).elim
    | cons v vs =>
      simp only [rowCompleteNumeric, Bool.and_eq_true] at hrc
      cases j with
      | zero =>
        simp only [List.get] at hnum
        rw [hnum] at hrc
        simp only [Bool.not_true, Bool.false_or, Bool.or_eq_true] at hrc
        have hne := hrc.1
        simp only [Bool.not_eq_true', decide_eq_false_iff_not] at hne
        intro he
        simp only [cellAt, List.getD, List.get?_cons_zero, Option.getD_some] at he
        exact hne he
      | succ j =>
        exact ih vs hrc.2 j (by simpa using hj) hnum

/-- C2: after `handle_missing_values`, every surviving row has a
non-missing value in every numeric-dtype column (the stage does not
change dtypes, so these are the table's current Number-typed columns). -/
theorem claim_C2 (df : DataFrame) (r : List Value)
    (hr : r ∈ (handleMissingValues df).rows)
    (j : Nat) (hj : j < df.cols.length)
    (hnum : (df.cols.get ⟨j, hj⟩).isNumeric = true) :
    cellAt r j ≠ Value.missing := by
  by_cases he : (df.cols.filter (fun c => c.isNumeric)).isEmpty
  · exfalso
    rw [List.isEmpty_iff, List.filter_eq_nil_iff] at he
    exact absurd hnum (by simpa using he _ (List.get_mem df.cols j hj))
  · rw [handleMissingValues] at hr
    simp only [he, if_neg, Bool.false_eq_true, not_false_eq_true] at hr
    have hmem := List.mem_filter.mp hr
    exact rowCompleteNumeric_spec df.cols r hmem.2 j hj hnum

/-- C2, witness: a concrete run of the theorem. -/
theorem claim_C2_witness : cellAt [Value.vnum 1] 0 ≠ Value.missing :=
  claim_C2 dfW2 [Value.vnum 1] (by decide) 0 (by decide) (by decide)

/-! ## The invalid-value filter: lemmas about `filterE` and `applyFilters` -/

/-- Every survivor of a successful `filterE` run passed its test. -/
theorem filterE_ok_mem {p : α → Except String Bool} :
    ∀ {l l' : List α}, filterE p l = .ok l' → ∀ a ∈ l', p a = .ok true := by
  intro l
  induction l with
  | nil =>
    intro l' h a ha
    simp only [filterE] at h
    injection h with h
    subst h
    simp at ha
  | cons b t ih =>
    intro l' h a ha
    cases hpb : p b with
    | error e => simp [filterE, hpb] at h
    | ok bb =>
      cases hft : filterE p t with
      | error e => simp [filterE, hpb, hft] at h
      | ok t' =>
        simp only [filterE, hpb, hft] at h
        injection h with h
        subst h
        cases bb with
        | false => exact ih hft a ha
        | true =>
          simp only [if_true] at ha
          rcases List.mem_cons.mp ha with rfl | ha'
          · rw [hpb]
          · exact ih hft a ha'

/-- A successful `filterE` run returns a sublist of its input. -/
theorem filterE_ok_sublist {p : α → Except String Bool} :
    ∀ {l l' : List α}, filterE p l = .ok l' → l'.Sublist l := by
  intro l
  induction l with
  | nil =>
    intro l' h
    simp only [filterE] at h
    injection h with h
    subst h
    exact List.Sublist.refl _
  | cons b t ih =>
    intro l' h
    cases hpb : p b with
    | error e => simp [filterE, hpb] at h
    | ok bb =>
      cases hft : filterE p t with
      | error e => simp [filterE, hpb, hft] at h
      | ok t' =>
        simp only [filterE, hpb, hft] at h
        injection h with h
        subst h
        cases bb with
        | false => exact (ih hft).trans (List.sublist_cons_self b t)
        | true => exact List.Sublist.cons₂ b (ih hft)

/-- A successful single-column filter keeps the columns, returns a
sublist of the rows, and every surviving row passed `>= 0` at that
column. -/
theorem colFilter_ok {nm : String} {df d : DataFrame} (h : colFilter nm df = .ok d) :
    d.cols = df.cols ∧ d.rows.Sublist df.rows ∧
      ∀ r ∈ d.rows, cmpGe0 (cellAt r (colIdx df.cols nm)) = .ok true := by
  cases hfe : filterE (fun r => cmpGe0 (cellAt r (colIdx df.cols nm))) df.rows with
  | error e => simp [colFilter, hfe, Except.map] at h
  | ok rs =>
    simp only [colFilter, hfe, Except.map] at h
    injection h with h
    subst h
    exact ⟨rfl, filterE_ok_sublist hfe, fun r hr => filterE_ok_mem hfe r hr⟩

/-- A successful `applyFilters` run keeps the columns, returns a sublist
of the rows, and every surviving row passed `>= 0` at every filtered
column. -/
theorem applyFilters_ok :
    ∀ (L : List String) (df df' : DataFrame), applyFilters L df = .ok df' →
      df'.cols = df.cols ∧ df'.rows.Sublist df.rows ∧
        ∀ nm ∈ L, ∀ r ∈ df'.rows, cmpGe0 (cellAt r (colIdx df.cols nm)) = .ok true := by
  intro L
  induction L with
  | nil =>
    intro df df' h
    simp only [applyFilters] at h
    injection h with h
    subst h
    exact ⟨rfl, List.Sublist.refl _, by simp⟩
  | cons nm rest ih =>
    intro df df' h
    cases hcf : colFilter nm df with
    | error e => simp [applyFilters, hcf] at h
    | ok d =>
      simp only [applyFilters, hcf] at h
      obtain ⟨hcols, hsub, hmem⟩ := colFilter_ok hcf
      obtain ⟨hcols', hsub', hmem'⟩ := ih d df' h
      refine ⟨hcols'.trans hcols, hsub'.trans hsub, ?_⟩
      intro nm' hnm' r hr
      rcases List.mem_cons.mp hnm' with rfl | hnm'
      · exact hmem r (hsub'.subset hr)
      · have := hmem' nm' hnm' r hr
        rwa [hcols] at this

/-- With unique column names, the label of column `j` looks up to `j`. -/
theorem colIdx_get :
    ∀ (cols : List Col), (cols.map Col.name).Nodup →
      ∀ (j : Nat) (hj : j < cols.length), colIdx cols (cols.get ⟨j, hj⟩).name = j := by
  intro cols
  induction cols with
  | nil =>
    intro _ j hj
    simp at hj
  | cons c cs ih =>
    intro hnd j hj
    simp only [List.map_cons, List.nodup_cons] at hnd
    cases j with
    | zero =>
      simp only [List.get, colIdx, List.findIdx_cons, beq_self_eq_true, cond_true]
    | succ j =>
      have hj' : j < cs.length := by simpa using hj
      have hne : ¬c.name = (cs.get ⟨j, hj'⟩).name := by
        intro he
        exact hnd.1 (he ▸ List.mem_map_of_mem Col.name (List.get_mem cs j hj'))
      simp only [List.get, colIdx, List.findIdx_cons]
      rw [show (c.name == (cs.get ⟨j, hj'⟩).name) = false from beq_eq_false_iff_ne.mpr hne]
      simp only [cond_false]
      exact congrArg (· + 1) (ih hnd.2 j hj')

/-- A column whose name matches the price/quantity pattern appears in
`cols_to_check = price_cols + quantity_cols`. -/
theorem mem_numericColNames {cols : List Col} {j : Nat} (hj : j < cols.length)
    (h : isNumericName (cols.get ⟨j, hj⟩).name = true) :
    (cols.get ⟨j, hj⟩).name ∈ numericColNames cols := by
  have hmem : (cols.get ⟨j, hj⟩).name ∈ cols.map Col.name :=
    List.mem_map_of_mem Col.name (List.get_mem cols j hj)
  rw [isNumericName, Bool.or_eq_true] at h
  rcases h with h | h
  · exact List.mem_append_left _ (List.mem_filter.mpr ⟨hmem, h⟩)
  · exact List.mem_append_right _ (List.mem_filter.mpr ⟨hmem, h⟩)

/-! ## Claim C3: invalid-filter correctness -/

/-- C3: after a successful `remove_invalid_rows` run on a table with
unique column names, every surviving row holds a nonnegative number in
every column whose name (case-insensitively) contains `price`,
`quantity`, or `qty`. -/
theorem claim_C3 (df df' : DataFrame) (hnd : (df.cols.map Col.name).Nodup)
    (h : removeInvalidRows df = .ok df') :
    ∀ r ∈ df'.rows, ∀ (j : Nat) (hj : j < df.cols.length),
      isNumericName (df.cols.get ⟨j, hj⟩).name = true →
      ∃ q : ℚ, cellAt r j = Value.vnum q ∧ 0 ≤ q := by
  intro r hr j hj hname
  have hok := (applyFilters_ok _ df df' h).2.2 _ (mem_numericColNames hj hname) r hr
  rw [colIdx_get df.cols hnd j hj] at hok
  cases hv : cellAt r j with
  | vstr s => rw [hv] at hok; simp [cmpGe0] at hok
  | missing => rw [hv] at hok; simp [cmpGe0] at hok
  | vnum q =>
    rw [hv] at hok
    simp only [cmpGe0, Except.ok.injEq, decide_eq_true_eq] at hok
    exact ⟨q, rfl, hok⟩

/-- C3, witness: a concrete run of the theorem. -/
theorem claim_C3_witness : ∃ q : ℚ, cellAt [Value.vnum 2] 0 = Value.vnum q ∧ 0 ≤ q :=
  claim_C3 dfW3 { cols := [⟨"price", true⟩], rows := [[.vnum 2]] }
    (by decide) (by decide) [Value.vnum 2] (by decide) 0 (by decide) (by decide)

/-! ## Claim C10: the invalid filter also removes missing price/qty cells -/

/-- C10: after a successful `remove_invalid_rows` run on a table with
unique column names, no surviving row holds the missing marker in any
price/quantity-named column — `NaN >= 0` evaluates false, so such rows
are filtered out regardless of whether the missing-value filter ran. -/
theorem claim_C10 (df df' : DataFrame) (hnd : (df.cols.map Col.name).Nodup)
    (h : removeInvalidRows df = .ok df') :
    ∀ r ∈ df'.rows, ∀ (j : Nat) (hj : j < df.cols.length),
      isNumericName (df.cols.get ⟨j, hj⟩).name = true →
      cellAt r j ≠ Value.missing := by
  intro r hr j hj hname
  have hok := (applyFilters_ok _ df df' h).2.2 _ (mem_numericColNames hj hname) r hr
  rw [colIdx_get df.cols hnd j hj] at hok
  intro hv
  rw [hv] at hok
  simp [cmpGe0] at hok

/-- C10, witness: a concrete run of the theorem. -/
theorem claim_C10_witness : cellAt [Value.vnum 5] 0 ≠ Value.missing :=
  claim_C10 dfW10 { cols := [⟨"qty", true⟩], rows := [[.vnum 5]] }
    (by decide) (by decide) [Value.vnum 5] (by decide) 0 (by decide) (by decide)

/-! ## `convert_to_numeric`: row-level characterization -/

/-- Updating one column with a name-preserving function keeps the name
sequence. -/
theorem listUpdateAt_map_name {f : Col → Col} (hf : ∀ c, (f c).name = c.name) :
    ∀ (i : Nat) (cols : List Col),
      (listUpdateAt i f cols).map Col.name = cols.map Col.name := by
  intro i
  induction i with
  | zero =>
    intro cols
    cases cols with
    | nil => rfl
    | cons c cs => simp [listUpdateAt, hf]
  | succ n ih =>
    intro cols
    cases cols with
    | nil => rfl
    | cons c cs => simp [listUpdateAt, ih]

/-- `convStep` does not change column names. -/
theorem convStep_names (d : DataFrame) (nm : String) :
    (convStep d nm).cols.map Col.name = d.cols.map Col.name :=
  listUpdateAt_map_name (f := fun c => { c with isNumeric := true }) (fun _ => rfl) _ _

/-- Label lookup depends only on the name sequence. -/
theorem colIdx_eq_of_names :
    ∀ {cols cols' : List Col}, cols.map Col.name = cols'.map Col.name →
      ∀ nm, colIdx cols nm = colIdx cols' nm := by
  intro cols
  induction cols with
  | nil =>
    intro cols' h nm
    cases cols' with
    | nil => rfl
    | cons c' cs' => simp at h
  | cons c cs ih =>
    intro cols' h nm
    cases cols' with
    | nil => simp at h
    | cons c' cs' =>
      simp only [List.map_cons, List.cons.injEq] at h
      simp only [colIdx, List.findIdx_cons, h.1]
      cases hb : (c'.name == nm) with
      | false =>
        simp only [cond_false]
        exact congrArg (· + 1) (ih h.2 nm)
      | true => rfl

/-- The fold of `convStep`s acts on rows as the per-row fold `convRow`
(all lookups resolve against the original columns, whose names no step
changes). -/
theorem foldl_convStep_rows :
    ∀ (L : List String) (d : DataFrame),
      (L.foldl convStep d).rows = d.rows.map (convRow d.cols L) := by
  intro L
  induction L with
  | nil =>
    intro d
    show d.rows = List.map (fun r => r) d.rows
    exact (List.map_id' d.rows).symm
  | cons nm rest ih =>
    intro d
    have hnames := convStep_names d nm
    have hcr : convRow (convStep d nm).cols rest = convRow d.cols rest := by
      unfold convRow
      have : colIdx (convStep d nm).cols = colIdx d.cols :=
        funext (colIdx_eq_of_names hnames)
      rw [this]
    calc ((nm :: rest).foldl convStep d).rows
        = (rest.foldl convStep (convStep d nm)).rows := rfl
      _ = (convStep d nm).rows.map (convRow (convStep d nm).cols rest) := ih _
      _ = (d.rows.map (listUpdateAt (colIdx d.cols nm) toNumericCell)).map (convRow d.cols rest) := by
          rw [hcr]
          rfl
      _ = d.rows.map (convRow d.cols (nm :: rest)) := by
          rw [List.map_map]
          rfl

/-- `convert_to_numeric` maps each row through `convRow`, preserving row
count and order. -/
theorem convertToNumeric_rows (df : DataFrame) :
    (convertToNumeric df).rows = df.rows.map (convRow df.cols (numericColNames df.cols)) :=
  foldl_convStep_rows _ df

/-! ## Cell-level lemmas about `listUpdateAt` folds -/

theorem cellAt_cons_succ (a : Value) (t : List Value) (j : Nat) :
    cellAt (a :: t) (j + 1) = cellAt t j := rfl

/-- An update at a different position does not change a cell. -/
theorem cellAt_listUpdateAt_ne {f : Value → Value} :
    ∀ (r : List Value) (i j : Nat), i ≠ j →
      cellAt (listUpdateAt i f r) j = cellAt r j := by
  intro r
  induction r with
  | nil =>
    intro i j _
    cases i <;> rfl
  | cons a t ih =>
    intro i j hne
    cases i with
    | zero =>
      cases j with
      | zero => exact absurd rfl hne
      | succ j => rfl
    | succ i =>
      cases j with
      | zero => rfl
      | succ j => exact ih i j (fun h => hne (congrArg (· + 1) h))

/-- An update at a position yields the updated cell there — or the
position is out of range and reads missing. -/
theorem cellAt_listUpdateAt_self {f : Value → Value} :
    ∀ (r : List Value) (i : Nat),
      cellAt (listUpdateAt i f r) i = f (cellAt r i)
      ∨ cellAt (listUpdateAt i f r) i = Value.missing := by
  intro r
  induction r with
  | nil =>
    intro i
    right
    cases i <;> rfl
  | cons a t ih =>
    intro i
    cases i with
    | zero => left; rfl
    | succ i => exact ih i

/-- A fold of updates at positions avoiding `j` leaves cell `j` alone. -/
theorem cellAt_foldUpd_not_mem {f : Value → Value} :
    ∀ (idxs : List Nat) (r : List Value) (j : Nat), j ∉ idxs →
      cellAt (idxs.foldl (fun r i => listUpdateAt i f r) r) j = cellAt r j := by
  intro idxs
  induction idxs with
  | nil => intro r j _; rfl
  | cons i rest ih =>
    intro r j hj
    have hji : i ≠ j := fun h => hj (h ▸ List.mem_cons_self i rest)
    have hjr : j ∉ rest := fun h => hj (List.mem_cons_of_mem i h)
    calc cellAt (rest.foldl (fun r i => listUpdateAt i f r) (listUpdateAt i f r)) j
        = cellAt (listUpdateAt i f r) j := ih _ j hjr
      _ = cellAt r j := cellAt_listUpdateAt_ne r i j hji

/-- Coercion always yields a number or the missing marker. -/
theorem isNumOrMissing_toNumericCell (v : Value) :
    isNumOrMissing (toNumericCell v) = true := by
  cases v with
  | vstr s =>
    simp only [toNumericCell]
    cases parseNumeric s <;> simp [isNumOrMissing]
  | vnum q => rfl
  | missing => rfl

/-- After a fold of updates by a function whose outputs are numbers or
missing, any cell at an updated position is a number or missing. -/
theorem cellAt_foldUpd_mem {f : Value → Value}
    (hf : ∀ v, isNumOrMissing (f v) = true) :
    ∀ (idxs : List Nat) (r : List Value) (j : Nat), j ∈ idxs →
      isNumOrMissing (cellAt (idxs.foldl (fun r i => listUpdateAt i f r) r) j) = true := by
  intro idxs
  induction idxs with
  | nil => intro r j hj; simp at hj
  | cons i rest ih =>
    intro r j hj
    by_cases hjr : j ∈ rest
    · exact ih _ j hjr
    · have hji : j = i := by
        rcases List.mem_cons.mp hj with h | h
        · exact h
        · exact absurd h hjr
      subst hji
      show isNumOrMissing
        (cellAt (rest.foldl (fun r i => listUpdateAt i f r) (listUpdateAt j f r)) j) = true
      rw [cellAt_foldUpd_not_mem rest _ j hjr]
      rcases cellAt_listUpdateAt_self r j (f := f) with h | h
      · rw [h]; exact hf _
      · rw [h]; rfl

/-! ## Claim C4: numeric coercion never raises -/

/-- C4: `convert_to_numeric` is a total function: an unparseable string
becomes the missing marker (never an error), and in the result every
cell of every price/quantity-named column is a number or the missing
marker, never a raw string. -/
theorem claim_C4 (df : DataFrame) (hnd : (df.cols.map Col.name).Nodup) :
    (∀ s : String, parseNumeric s = none → toNumericCell (.vstr s) = .missing)
    ∧ ∀ r ∈ (convertToNumeric df).rows, ∀ (j : Nat) (hj : j < df.cols.length),
        isNumericName (df.cols.get ⟨j, hj⟩).name = true →
        isNumOrMissing (cellAt r j) = true := by
  constructor
  · intro s hp
    simp [toNumericCell, hp]
  · intro r hr j hj hname
    rw [convertToNumeric_rows] at hr
    obtain ⟨r0, _, rfl⟩ := List.mem_map.mp hr
    have hconv : convRow df.cols (numericColNames df.cols) r0
        = ((numericColNames df.cols).map (colIdx df.cols)).foldl
            (fun r i => listUpdateAt i toNumericCell r) r0 := by
      rw [convRow, List.foldl_map]
    rw [hconv]
    apply cellAt_foldUpd_mem isNumOrMissing_toNumericCell
    have hj' : colIdx df.cols ((df.cols.get ⟨j, hj⟩).name) = j := colIdx_get df.cols hnd j hj
    exact hj' ▸ List.mem_map_of_mem (colIdx df.cols) (mem_numericColNames hj hname)

/-- C4, witness: a concrete run of the theorem. -/
theorem claim_C4_witness :
    toNumericCell (.vstr "abc") = .missing
    ∧ isNumOrMissing (cellAt [Value.missing] 0) = true :=
  ⟨(claim_C4 dfW4 (by decide)).1 "abc" (by decide),
   (claim_C4 dfW4 (by decide)).2 [Value.missing] (by decide) 0 (by decide) (by decide)⟩

/-! ## `clean_text_fields`: row-level characterization -/

/-- Folding per-column whole-table updates equals mapping the per-row
fold over the rows: the column loop touches each row independently. -/
theorem foldl_map_comm {g : ι → α → α} :
    ∀ (idxs : List ι) (l : List α),
      idxs.foldl (fun acc i => acc.map (g i)) l
        = l.map (fun a => idxs.foldl (fun a i => g i a) a) := by
  intro idxs
  induction idxs with
  | nil =>
    intro l
    exact (List.map_id' l).symm
  | cons i rest ih =>
    intro l
    calc ((i :: rest).foldl (fun acc i => acc.map (g i)) l)
        = rest.foldl (fun acc i => acc.map (g i)) (l.map (g i)) := rfl
      _ = (l.map (g i)).map (fun a => rest.foldl (fun a i => g i a) a) := ih _
      _ = l.map (fun a => (i :: rest).foldl (fun a i => g i a) a) := by
          rw [List.map_map]
          rfl

/-- `clean_text_fields` maps each row through `textCleanRow`, preserving
row count and order. -/
theorem cleanTextFields_rows (df : DataFrame) :
    (cleanTextFields df).rows = df.rows.map (textCleanRow df.cols) :=
  foldl_map_comm _ _

/-- Cell-level description of a single positional update. -/
theorem listUpdateAt_get? {f : α → α} :
    ∀ (r : List α) (i j : Nat),
      (listUpdateAt i f r).get? j = if i = j then (r.get? j).map f else r.get? j := by
  intro r
  induction r with
  | nil =>
    intro i j
    cases i <;> simp [listUpdateAt]
  | cons a t ih =>
    intro i j
    cases i with
    | zero =>
      cases j with
      | zero => rfl
      | succ j => simp [listUpdateAt]
    | succ i =>
      cases j with
      | zero => simp [listUpdateAt]
      | succ j =>
        have hred : (listUpdateAt (i + 1) f (a :: t)).get? (j + 1)
            = (listUpdateAt i f t).get? j := rfl
        rw [hred, ih i j]
        by_cases h : i = j
        · subst h
          simp
        · have h2 : ¬(i + 1 = j + 1) := fun hh => h (Nat.succ_injective hh)
          simp [h, h2]

/-- Cell-level description of a fold of updates at distinct positions. -/
theorem foldUpd_get? {f : α → α} :
    ∀ (idxs : List Nat), idxs.Nodup → ∀ (r : List α) (j : Nat),
      (idxs.foldl (fun r i => listUpdateAt i f r) r).get? j
        = if j ∈ idxs then (r.get? j).map f else r.get? j := by
  intro idxs
  induction idxs with
  | nil =>
    intro _ r j
    simp
  | cons i rest ih =>
    intro hnd r j
    rw [List.nodup_cons] at hnd
    have hstep := ih hnd.2 (listUpdateAt i f r) j
    calc ((i :: rest).foldl (fun r i => listUpdateAt i f r) r).get? j
        = (rest.foldl (fun r i => listUpdateAt i f r) (listUpdateAt i f r)).get? j := rfl
      _ = if j ∈ rest then ((listUpdateAt i f r).get? j).map f
            else (listUpdateAt i f r).get? j := hstep
      _ = if j ∈ i :: rest then (r.get? j).map f else r.get? j := by
          rw [listUpdateAt_get?]
          by_cases hjr : j ∈ rest
          · have hij : ¬i = j := fun h => hnd.1 (h ▸ hjr)
            simp [hjr, hij, List.mem_cons]
          · by_cases hij : i = j
            · simp [hjr, hij, List.mem_cons]
            · have hnotin : ¬j ∈ i :: rest := by
                rw [List.mem_cons]
                push_neg
                exact ⟨fun h => hij h.symm, hjr⟩
              simp [hjr, hij, hnotin]

/-- The object-column positions are distinct. -/
theorem objIdxs_nodup : ∀ cols : List Col, (objIdxs cols).Nodup := by
  intro cols
  induction cols with
  | nil => exact List.nodup_nil
  | cons c cs ih =>
    have hmap : ((objIdxs cs).map (· + 1)).Nodup :=
      ih.map (add_left_injective 1)
    by_cases h : c.isNumeric
    · simpa [objIdxs, h] using hmap
    · rw [objIdxs]
      simp only [h, Bool.false_eq_true, if_false, List.nodup_cons]
      refine ⟨fun hmem => ?_, hmap⟩
      obtain ⟨x, _, hx⟩ := List.mem_map.mp hmem
      omega

/-- A position holding an object-dtype column is an object position. -/
theorem objIdxs_mem_of :
    ∀ (cols : List Col) (j : Nat) (c : Col), cols.get? j = some c →
      c.isNumeric = false → j ∈ objIdxs cols := by
  intro cols
  induction cols with
  | nil =>
    intro j c hc
    simp at hc
  | cons c0 cs ih =>
    intro j c hc hobj
    cases j with
    | zero =>
      rw [List.get?_cons_zero] at hc
      injection hc with hc
      subst hc
      simp [objIdxs, hobj]
    | succ j =>
      rw [List.get?_cons_succ] at hc
      have hmem : j + 1 ∈ (objIdxs cs).map (· + 1) :=
        List.mem_map_of_mem (· + 1) (ih j c hc hobj)
      by_cases h : c0.isNumeric
      · simpa [objIdxs, h] using hmem
      · have hobj2 : objIdxs (c0 :: cs) = 0 :: (objIdxs cs).map (· + 1) := by
          simp [objIdxs, h]
        rw [hobj2]
        exact List.mem_cons_of_mem 0 hmem

/-- Cell-level description of `textCleanRow`. -/
theorem textCleanRow_get? (cols : List Col) (r : List Value) (j : Nat) :
    (textCleanRow cols r).get? j
      = if j ∈ objIdxs cols then (r.get? j).map textCleanValue else r.get? j :=
  foldUpd_get? _ (objIdxs_nodup cols) r j

/-- Trimming an already-trimmed cell changes nothing. -/
theorem textCleanValue_idem (v : Value) :
    textCleanValue (textCleanValue v) = textCleanValue v := by
  show Value.vstr (stripStr (valueToStr (.vstr (stripStr (valueToStr v)))))
      = Value.vstr (stripStr (valueToStr v))
  rw [valueToStr, stripStr_idem]

/-- `textCleanRow` is idempotent. -/
theorem textCleanRow_idem (cols : List Col) (r : List Value) :
    textCleanRow cols (textCleanRow cols r) = textCleanRow cols r := by
  apply List.ext_get?
  intro j
  rw [textCleanRow_get?, textCleanRow_get?]
  by_cases hm : j ∈ objIdxs cols
  · simp only [hm, if_true]
    cases r.get? j with
    | none => rfl
    | some v => simp [textCleanValue_idem]
  · simp [hm]

/-! ## Claim C8: text trimming is a fixed point -/

/-- C8: running `clean_text_fields` a second time changes no cell value
(nor anything else): the stage is idempotent, so a table whose text
columns were already processed once is left untouched. -/
theorem claim_C8 (df : DataFrame) :
    cleanTextFields (cleanTextFields df) = cleanTextFields df := by
  have hext : ∀ a b : DataFrame, a.cols = b.cols → a.rows = b.rows → a = b := by
    intro a b h1 h2
    cases a
    cases b
    simp_all
  refine hext _ _ rfl ?_
  rw [cleanTextFields_rows (cleanTextFields df), cleanTextFields_rows df]
  show (df.rows.map (textCleanRow df.cols)).map (textCleanRow df.cols)
      = df.rows.map (textCleanRow df.cols)
  rw [List.map_map]
  exact List.map_congr_left fun r _ => textCleanRow_idem df.cols r

/-! ## Claim C9: missing text cells become the string "nan" -/

/-- C9: a missing value in an object-dtype (Text) column is turned by
`clean_text_fields` into the literal string `"nan"` (via `astype(str)`);
the cell is an ordinary non-missing string afterwards. -/
theorem claim_C9 (df : DataFrame) (i j : Nat) (c : Col)
    (hc : df.cols.get? j = some c) (hobj : c.isNumeric = false)
    (r : List Value) (hr : df.rows.get? i = some r)
    (hv : r.get? j = some Value.missing) :
    ∃ r', (cleanTextFields df).rows.get? i = some r'
      ∧ r'.get? j = some (Value.vstr "nan")
      ∧ Value.vstr "nan" ≠ Value.missing := by
  refine ⟨textCleanRow df.cols r, ?_, ?_, by decide⟩
  · rw [cleanTextFields_rows, List.get?_map, hr]
    rfl
  · rw [textCleanRow_get?, if_pos (objIdxs_mem_of df.cols j c hc hobj), hv]
    exact congrArg some (by decide)

/-- C9, witness: a concrete run of the theorem. -/
theorem claim_C9_witness :
    ∃ r', (cleanTextFields dfW9).rows.get? 0 = some r'
      ∧ r'.get? 0 = some (Value.vstr "nan")
      ∧ Value.vstr "nan" ≠ Value.missing :=
  claim_C9 dfW9 0 0 ⟨"category", false⟩ rfl rfl [Value.missing] rfl rfl

/-! ## Claim C7: row-order preservation -/

/-- C7: no pipeline stage reorders rows.  The two value-rewriting stages
map each row in place (`rows` becomes an order-preserving `map` of the
input rows), and the two filtering stages return a sublist of the input
rows, so any two surviving rows keep their relative order. -/
theorem claim_C7 (df : DataFrame) :
    (cleanTextFields df).rows = df.rows.map (textCleanRow df.cols)
    ∧ (convertToNumeric df).rows = df.rows.map (convRow df.cols (numericColNames df.cols))
    ∧ (handleMissingValues df).rows.Sublist df.rows
    ∧ ∀ df' : DataFrame, removeInvalidRows df = .ok df' → df'.rows.Sublist df.rows := by
  refine ⟨cleanTextFields_rows df, convertToNumeric_rows df, ?_,
    fun df' h => (applyFilters_ok _ df df' h).2.1⟩
  rw [handleMissingValues]
  by_cases he : (df.cols.filter (fun c => c.isNumeric)).isEmpty
  · simp only [he, if_true]
    exact List.Sublist.refl _
  · simp only [he, Bool.false_eq_true, if_false]
    exact List.filter_sublist _

/-- C7, witness: a concrete run of the theorem, including the
invalid-filter conjunct at a successful concrete run. -/
theorem claim_C7_witness :
    (cleanTextFields dfW7).rows = dfW7.rows.map (textCleanRow dfW7.cols)
    ∧ ([[Value.vnum 3]] : List (List Value)).Sublist dfW7.rows :=
  ⟨(claim_C7 dfW7).1,
   (claim_C7 dfW7).2.2.2 { cols := [⟨"price", true⟩], rows := [[.vnum 3]] } (by decide)⟩

/-! ## Claim C5: order of the per-column filters -/

/-- When every test succeeds, `filterE` is an ordinary filter. -/
theorem filterE_eq_filter {p : α → Except String Bool} {q : α → Bool} :
    ∀ {l : List α}, (∀ a ∈ l, p a = .ok (q a)) → filterE p l = .ok (l.filter q) := by
  intro l
  induction l with
  | nil =>
    intro _
    rfl
  | cons a t ih =>
    intro h
    have ha := h a (List.mem_cons_self a t)
    have ht := ih fun b hb => h b (List.mem_cons_of_mem a hb)
    simp only [filterE, ha, ht, List.filter_cons]

/-- On a cell that is a number or missing, the `>= 0` comparison is
defined and computes `ge0b`. -/
theorem cmpGe0_eq_ge0b {v : Value} (h : isNumOrMissing v = true) :
    cmpGe0 v = .ok (ge0b v) := by
  cases v with
  | vstr s => simp [isNumOrMissing] at h
  | vnum q => rfl
  | missing => rfl

/-- On a table whose checked cells are all numbers-or-missing, applying
the per-column filters for a list of labels computes the plain filter by
the conjunction of the per-label `>= 0` tests. -/
theorem applyFilters_eq_filter :
    ∀ (L : List String) (df : DataFrame),
      (∀ r ∈ df.rows, ∀ nm ∈ L, isNumOrMissing (cellAt r (colIdx df.cols nm)) = true) →
      applyFilters L df
        = .ok { df with
                rows := df.rows.filter
                  (fun r => L.all (fun nm => ge0b (cellAt r (colIdx df.cols nm)))) } := by
  intro L
  induction L with
  | nil =>
    intro df _
    show Except.ok df = _
    rw [show (fun (r : List Value) => List.all [] (fun nm => ge0b (cellAt r (colIdx df.cols nm)))) = fun _ => true from rfl]
    rw [List.filter_true]
  | cons nm rest ih =>
    intro df hok
    have hstep : colFilter nm df
        = .ok { df with rows := df.rows.filter (fun r => ge0b (cellAt r (colIdx df.cols nm))) } := by
      rw [colFilter, filterE_eq_filter (q := fun r => ge0b (cellAt r (colIdx df.cols nm)))
        (fun r hr => cmpGe0_eq_ge0b (hok r hr nm (List.mem_cons_self nm rest)))]
      rfl
    have happ : applyFilters (nm :: rest) df
        = applyFilters rest { df with rows := df.rows.filter (fun r => ge0b (cellAt r (colIdx df.cols nm))) } := by
      simp [applyFilters, hstep]
    have hin : ∀ r ∈ df.rows.filter (fun r => ge0b (cellAt r (colIdx df.cols nm))),
        ∀ nm' ∈ rest, isNumOrMissing (cellAt r (colIdx df.cols nm')) = true := by
      intro r hr nm' hnm'
      exact hok r (List.mem_of_mem_filter hr) nm' (List.mem_cons_of_mem nm hnm')
    have hih := ih { df with rows := df.rows.filter (fun r => ge0b (cellAt r (colIdx df.cols nm))) } hin
    rw [happ, hih]
    refine congrArg Except.ok ?_
    show ({ df with
            rows := (df.rows.filter (fun r => ge0b (cellAt r (colIdx df.cols nm)))).filter
              (fun r => rest.all (fun nm => ge0b (cellAt r (colIdx df.cols nm)))) } : DataFrame) = _
    refine congrArg (fun rs => ({ df with rows := rs } : DataFrame)) ?_
    rw [List.filter_filter]
    refine List.filter_congr fun r _ => ?_
    rw [List.all_cons, Bool.and_comm]

/-- `all` over a list depends only on the multiset of elements. -/
theorem all_perm_eq {L L' : List α} (h : L.Perm L') (f : α → Bool) :
    L.all f = L'.all f := by
  cases hb : L'.all f with
  | false =>
    cases hb2 : L.all f with
    | false => rfl
    | true =>
      exfalso
      rw [List.all_eq_true] at hb2
      have hall : L'.all f = true := List.all_eq_true.mpr fun a ha => hb2 a (h.mem_iff.mpr ha)
      rw [hb] at hall
      cases hall
  | true =>
    exact List.all_eq_true.mpr fun a ha => (List.all_eq_true.mp hb) a (h.mem_iff.mp ha)

/-- C5, counterexample: the claim quantifies over *every* input table,
but when a checked column still holds a raw string, filter order is
observable: filtering `qty` first drops the offending row, after which
the `price` filter succeeds, while the code's order (`price` first)
raises `TypeError` on the string cell. -/
theorem claim_C5_counterexample :
    (["qty", "price"]).Perm (numericColNames dfStrPrice.cols)
    ∧ applyFilters ["qty", "price"] dfStrPrice ≠ removeInvalidRows dfStrPrice := by
  constructor
  · decide
  · decide

/-- C5, amended: on every table with unique column names whose
price/quantity-named columns hold only numbers or missing values (so the
`>= 0` comparisons are all defined), applying the per-column filters in
any order yields exactly the code's result. -/
theorem claim_C5 (df : DataFrame) (L : List String)
    (hperm : L.Perm (numericColNames df.cols))
    (hnum : checkedColsNumeric df = true) :
    applyFilters L df = removeInvalidRows df := by
  have hhyp : ∀ r ∈ df.rows, ∀ nm ∈ numericColNames df.cols,
      isNumOrMissing (cellAt r (colIdx df.cols nm)) = true := by
    intro r hr nm hnm
    have h1 := List.all_eq_true.mp hnum r hr
    exact List.all_eq_true.mp h1 nm hnm
  rw [removeInvalidRows,
    applyFilters_eq_filter L df (fun r hr nm hnm => hhyp r hr nm (hperm.subset hnm)),
    applyFilters_eq_filter (numericColNames df.cols) df hhyp]
  exact congrArg Except.ok (congrArg (fun rs => { df with rows := rs })
    (List.filter_congr fun r _ => all_perm_eq hperm _))

/-- C5, witness: a concrete run of the amended theorem. -/
theorem claim_C5_witness : applyFilters ["qty", "price"] dfW5 = removeInvalidRows dfW5 :=
  claim_C5 dfW5 ["qty", "price"] (by decide) (by decide)

end DataCleaning
